import Mathlib

/-!
Verification of the workspace dependency normalizer
(packages/WhisperDrop/scripts/fix_deps.py).

The script walks a directory tree, finds files named package.json,
parses each as JSON, rewrites every dependency entry whose package name
starts with the internal scope marker to the workspace pointer token,
and writes the file back (2-space indent plus a trailing newline) only
when something changed.  Directories whose path contains the excluded
name are skipped.

The embedding below models JSON values, the Python dictionary
operations the script uses, the per-file normalization, the JSON
serializer (json.dump with indent 2), and the directory walk plus the
file store the run mutates.
-/

namespace FixDeps

/-- JSON values as produced by json.load: null, booleans, numbers
(the manifests this tool handles carry no fractional numbers, so
integers suffice), strings, arrays, and objects.  Objects keep the
parser's insertion order, as Python dicts do. -/
inductive Json where
  | null
  | bool (b : Bool)
  | num (n : Int)
  | str (s : String)
  | arr (xs : List Json)
  | obj (fields : List (String × Json))

/-- The hardcoded internal scope marker. -/
def SCOPE : String := "@styx/"

/-- The hardcoded workspace pointer token. -/
def WORKSPACE : String := "workspace:*"

/-- The three recognized dependency mapping field names, in the order
the script iterates them. -/
def DEP_TYPES : List String := ["dependencies", "devDependencies", "peerDependencies"]

/-- The excluded directory name. -/
def EXCLUDED : String := "node_modules"

/-- Substring occurrence on character lists: pat occurs contiguously
inside s.  Models the Python expression pat in s for strings. -/
def hasSubstr : List Char → List Char → Bool
  | pat, [] => pat.isEmpty
  | pat, c :: rest => pat.isPrefixOf (c :: rest) || hasSubstr pat rest

/-- Python substring membership test (needle in hay) for strings. -/
def pyIn (needle hay : String) : Bool := hasSubstr needle.data hay.data

/-- Python str.startswith. -/
def pyStartsWith (s pre : String) : Bool := pre.data.isPrefixOf s.data

/-- Equality of a JSON value with a given string literal: the Python
comparison version == "workspace:*" is True exactly when version is
that string (any non-string value compares unequal). -/
def isStrEq : Json → String → Bool
  | .str s, k => s == k
  | _, _ => false

/-- Python exceptions the script can raise (JSONDecodeError is handled
separately at the file level). -/
inductive PyError where
  | typeError
  | keyError
  | attributeError
  | fileNotFound
deriving DecidableEq

/-- Python membership test key in data for a JSON value: objects check
keys, arrays check elements, strings check substrings; other types
raise TypeError (argument not iterable). -/
def pyContains (key : String) : Json → Except PyError Bool
  | .obj fields => .ok (fields.any (fun f => f.1 == key))
  | .arr xs => .ok (xs.any (fun x => isStrEq x key))
  | .str s => .ok (pyIn key s)
  | _ => .error .typeError

/-- Python subscript data[key] with a string key: objects look the key
up (KeyError when absent), every other type raises TypeError. -/
def pyGetItem (j : Json) (key : String) : Except PyError Json :=
  match j with
  | .obj fields =>
    match fields.lookup key with
    | some v => .ok v
    | none => .error .keyError
  | _ => .error .typeError

/-- Python .items(): only dictionaries have it; anything else raises
AttributeError. -/
def getItems : Json → Except PyError (List (String × Json))
  | .obj fields => .ok fields
  | _ => .error .attributeError

/-- Assignment into an association list at a string key: replaces the
value at the first occurrence of the key in place (Python dict
assignment keeps the key's position), appends when absent. -/
def setAssoc {α : Type} (l : List (String × α)) (key : String) (v : α) : List (String × α) :=
  match l with
  | [] => [(key, v)]
  | f :: rest => if f.1 == key then (f.1, v) :: rest else f :: setAssoc rest key v

/-- Python subscript assignment data[key] = v: mutates dictionaries,
raises TypeError on every other JSON value. -/
def pySetItem (j : Json) (key : String) (v : Json) : Except PyError Json :=
  match j with
  | .obj fields => .ok (.obj (setAssoc fields key v))
  | _ => .error .typeError

/-- Operator-visible output lines: the decode-error message naming the
file, and the per-entry update message naming the package, the file,
the old value and the new value. -/
inductive LogLine where
  | decodeError (path : String)
  | updating (pkg : String) (path : String) (oldVal : Json) (newVal : String)

/-- The inner loop of fix_dependencies over one dependency mapping:
every entry whose key starts with the scope marker and whose value is
not the workspace pointer token is replaced by the token, a log line is
emitted, and the changed flag is set.  Mutating the value at the
current key during Python dict iteration leaves the iteration
unaffected, so the loop is a map over the entries. -/
def fixEntries (path : String) : List (String × Json) → List (String × Json) × Bool × List LogLine
  | [] => ([], false, [])
  | (pkg, version) :: rest =>
    let r := fixEntries path rest
    if pyStartsWith pkg SCOPE && !(isStrEq version WORKSPACE) then
      ((pkg, Json.str WORKSPACE) :: r.1, true, LogLine.updating pkg path version WORKSPACE :: r.2.2)
    else ((pkg, version) :: r.1, r.2.1, r.2.2)

/-- One iteration of the outer loop of fix_dependencies for one
dependency field name: when dep_type in data, iterate
data[dep_type].items() rewriting matching entries.  The per-entry
assignments data[dep_type][pkg] = "workspace:*" mutate the inner
dictionary through the alias, so their net effect is replacing that
field's mapping by its fixed form. -/
def stepDepType (path dt : String) : Json × Bool × List LogLine → Except PyError (Json × Bool × List LogLine)
  | (data, changed, logs) =>
    match pyContains dt data with
    | .error e => .error e
    | .ok false => .ok (data, changed, logs)
    | .ok true =>
      match pyGetItem data dt with
      | .error e => .error e
      | .ok sub =>
        match getItems sub with
        | .error e => .error e
        | .ok entries =>
          let r := fixEntries path entries
          match pySetItem data dt (Json.obj r.1) with
          | .error e => .error e
          | .ok data' => .ok (data', changed || r.2.1, logs ++ r.2.2)

/-- The scan phase of fix_dependencies on the parsed JSON value: the
outer loop over the three dependency field names, unrolled in source
order. -/
def fixData (path : String) (data : Json) : Except PyError (Json × Bool × List LogLine) :=
  match stepDepType path "dependencies" (data, false, []) with
  | .error e => .error e
  | .ok st1 =>
    match stepDepType path "devDependencies" st1 with
    | .error e => .error e
    | .ok st2 => stepDepType path "peerDependencies" st2

/-- Indentation padding of a given width. -/
def pad (n : Nat) : String := String.mk (List.replicate n ' ')

/-- One hexadecimal digit (lowercase), as emitted by json.dump escape
sequences. -/
def hexDigit (n : Nat) : Char := if n < 10 then Char.ofNat (48 + n) else Char.ofNat (87 + n)

/-- JSON string escaping for one character, following json.dump with
its default ensure_ascii: quote, backslash and the named control
escapes, a \x7bu\x7d escape for other control or non-ASCII characters,
the character itself otherwise. -/
def escapeChar (c : Char) : String :=
  if c = '"' then "\\\""
  else if c = '\\' then "\\\\"
  else if c = '\n' then "\\n"
  else if c = '\t' then "\\t"
  else if c = '\r' then "\\r"
  else if c.toNat = 8 then "\\b"
  else if c.toNat = 12 then "\\f"
  else if c.toNat < 32 || c.toNat > 126 then
    "\\u" ++ String.mk [hexDigit (c.toNat / 4096 % 16), hexDigit (c.toNat / 256 % 16),
      hexDigit (c.toNat / 16 % 16), hexDigit (c.toNat % 16)]
  else String.singleton c

/-- JSON string serialization: surrounding quotes and escaped body. -/
def escapeString (s : String) : String :=
  "\"" ++ String.join (s.data.map escapeChar) ++ "\""

mutual

/-- json.dump with indent=2 at the given current indentation: scalars
inline; non-empty arrays and objects open a line, indent each item two
further spaces, and close at the current indentation. -/
def dumpJson (ind : Nat) : Json → String
  | .null => "null"
  | .bool true => "true"
  | .bool false => "false"
  | .num n => toString n
  | .str s => escapeString s
  | .arr [] => "[]"
  | .arr (x :: xs) => "[\n" ++ dumpList (ind + 2) (x :: xs) ++ "\n" ++ pad ind ++ "]"
  | .obj [] => "\x7b\x7d"
  | .obj (f :: fs) => "\x7b\n" ++ dumpFields (ind + 2) (f :: fs) ++ "\n" ++ pad ind ++ "\x7d"

/-- Array items, one per line, comma separated. -/
def dumpList (ind : Nat) : List Json → String
  | [] => ""
  | [x] => pad ind ++ dumpJson ind x
  | x :: y :: rest => pad ind ++ dumpJson ind x ++ ",\n" ++ dumpList ind (y :: rest)

/-- Object members, one per line, comma separated, with the key-value
separator of json.dump. -/
def dumpFields (ind : Nat) : List (String × Json) → String
  | [] => ""
  | [(k, v)] => pad ind ++ escapeString k ++ ": " ++ dumpJson ind v
  | (k, v) :: g :: rest =>
    pad ind ++ escapeString k ++ ": " ++ dumpJson ind v ++ ",\n" ++ dumpFields ind (g :: rest)

end

/-- Bytes the script writes for a mutated manifest value: the full
serialization followed by the single newline of f.write after
json.dump. -/
def writtenBytes (j : Json) : String := dumpJson 0 j ++ "\n"

/-- On-disk content of one manifest file: either bytes that fail to
parse as JSON, or bytes raw whose parse is the value j. -/
inductive FileContent where
  | malformed (raw : String)
  | parsed (j : Json) (raw : String)

/-- Result of fix_dependencies on one file: the file's content after
the call, whether a write occurred, and the log lines printed. -/
structure FixResult where
  content : FileContent
  wrote : Bool
  logs : List LogLine

/-- fix_dependencies: parse the file (a decode failure prints the
error naming the path and returns, leaving the file untouched), scan
the three dependency mappings, and rewrite the file only when the scan
changed something. -/
def fix_dependencies (path : String) (c : FileContent) : Except PyError FixResult :=
  match c with
  | .malformed raw => .ok ⟨.malformed raw, false, [LogLine.decodeError path]⟩
  | .parsed j raw =>
    match fixData path j with
    | .error e => .error e
    | .ok (j', changed, logs) =>
      if changed then .ok ⟨.parsed j' (writtenBytes j'), true, logs⟩
      else .ok ⟨.parsed j raw, false, logs⟩

/-- One directory visited by os.walk: its path as the list of segments
that os.path.join concatenates (the first segment is the starting
directory "."), and the names of the plain files it directly
contains. -/
structure WalkEntry where
  segs : List String
  files : List String
deriving DecidableEq

/-- Path string built from segments, as os.walk and os.path.join
produce it. -/
def joinSegs : List String → String
  | [] => ""
  | [s] => s
  | s :: t :: rest => s ++ "/" ++ joinSegs (t :: rest)

/-- The manifest path recorded for a directory:
os.path.join(root, "package.json"). -/
def manifestPath (e : WalkEntry) : String := joinSegs e.segs ++ "/package.json"

/-- The discovery loop of main: for every walk entry, skip it when the
excluded name occurs in the root path string (a substring test), and
record the manifest path when the directory directly contains a file
named package.json. -/
def discover (w : List WalkEntry) : List String :=
  (w.filter (fun e => !(pyIn EXCLUDED (joinSegs e.segs)) && e.files.contains "package.json")).map
    manifestPath

/-- The file store: paths mapped to file contents. -/
abbrev Store : Type := List (String × FileContent)

/-- The processing loop of main: fix each discovered manifest in
order, threading the store; opening a missing path raises, and any
error from fix_dependencies propagates and aborts the remaining
files.  Also returns all log lines and the number of writes
performed. -/
def processFiles : List String → Store → Except PyError (Store × List LogLine × Nat)
  | [], store => .ok (store, [], 0)
  | path :: rest, store =>
    match List.lookup path store with
    | none => .error .fileNotFound
    | some c =>
      match fix_dependencies path c with
      | .error e => .error e
      | .ok r =>
        match processFiles rest (setAssoc store path r.content) with
        | .error e => .error e
        | .ok (store', logs, n) =>
          .ok (store', r.logs ++ logs, (if r.wrote then 1 else 0) + n)

/-- main: discover the manifests from the walk of the current
directory, then normalize each in order. -/
def runMain (w : List WalkEntry) (store : Store) : Except PyError (Store × List LogLine × Nat) :=
  processFiles (discover w) store

/-- Discriminator for JSON objects. -/
def Json.isObj : Json → Bool
  | .obj _ => true
  | _ => false

/-- Number of newline characters at the very end of a string. -/
def trailingNewlines (s : String) : Nat :=
  (s.data.reverse.takeWhile (fun c => c == '\n')).length

/-- A dependency mapping is normalized when every entry whose key
starts with the scope marker carries the workspace pointer token. -/
def NormalizedMap (m : List (String × Json)) : Prop :=
  ∀ e ∈ m, pyStartsWith e.1 SCOPE = true → e.2 = Json.str WORKSPACE

/-- A manifest object is settled when each recognized dependency field
is absent or holds a normalized mapping. -/
def Settled (fields : List (String × Json)) : Prop :=
  ∀ dt ∈ DEP_TYPES, List.lookup dt fields = none ∨
    ∃ m, List.lookup dt fields = some (Json.obj m) ∧ NormalizedMap m

/-- Discovery as claim C6 words it, for comparison with the code's
discover: a directory is pruned precisely when some path segment is
literally equal to the excluded directory name. -/
def discoverSegmentSpec (w : List WalkEntry) : List String :=
  (w.filter (fun e => !(e.segs.contains EXCLUDED) && e.files.contains "package.json")).map
    manifestPath

/-! Basic facts about the association-list operations. -/

/-- Looking up the assigned key finds the new value. -/
theorem lookup_setAssoc_self {α : Type} (l : List (String × α)) (key : String) (v : α) :
    List.lookup key (setAssoc l key v) = some v := by
  induction l with
  | nil => simp [setAssoc, List.lookup_cons]
  | cons f rest ih =>
    obtain ⟨k', v'⟩ := f
    by_cases hf : k' = key
    · subst hf
      simp [setAssoc, List.lookup_cons]
    · simp only [setAssoc]
      rw [if_neg (by simpa using hf)]
      rw [List.lookup_cons]
      simp only [beq_false_of_ne (Ne.symm hf)]
      exact ih

/-- Looking up any other key is unaffected by the assignment. -/
theorem lookup_setAssoc_other {α : Type} (l : List (String × α)) (key k : String) (v : α)
    (h : k ≠ key) : List.lookup k (setAssoc l key v) = List.lookup k l := by
  induction l with
  | nil => simp [setAssoc, List.lookup_cons, beq_false_of_ne h]
  | cons f rest ih =>
    obtain ⟨k', v'⟩ := f
    by_cases hf : k' = key
    · subst hf
      simp only [setAssoc, beq_self_eq_true, if_true]
      rw [List.lookup_cons, List.lookup_cons]
      simp only [beq_false_of_ne h]
    · simp only [setAssoc]
      rw [if_neg (by simpa using hf)]
      rw [List.lookup_cons, List.lookup_cons]
      by_cases hk : k = k'
      · simp [hk]
      · simp only [beq_false_of_ne hk]
        exact ih

/-- Assigning a key the value it already has leaves the list
unchanged. -/
theorem setAssoc_eq_self {α : Type} (l : List (String × α)) (key : String) (v : α)
    (h : List.lookup key l = some v) : setAssoc l key v = l := by
  induction l with
  | nil => simp [List.lookup] at h
  | cons f rest ih =>
    obtain ⟨k', v'⟩ := f
    by_cases hf : key = k'
    · subst hf
      rw [List.lookup_cons] at h
      simp only [beq_self_eq_true] at h
      cases h
      simp [setAssoc]
    · rw [List.lookup_cons] at h
      simp only [beq_false_of_ne hf] at h
      simp only [setAssoc]
      rw [if_neg (by simpa using Ne.symm hf)]
      rw [ih h]

/-- Key membership via any agrees with lookup finding nothing. -/
theorem any_key_false_iff {α : Type} (l : List (String × α)) (key : String) :
    (l.any (fun f => f.1 == key)) = false ↔ List.lookup key l = none := by
  induction l with
  | nil => simp [List.lookup]
  | cons f rest ih =>
    obtain ⟨k', v'⟩ := f
    rw [List.lookup_cons]
    by_cases hf : k' = key
    · subst hf
      simp
    · simp only [List.any_cons, beq_false_of_ne hf, beq_false_of_ne (Ne.symm hf),
        Bool.false_or]
      exact ih

/-- Key membership via any agrees with lookup finding a value. -/
theorem any_key_true_iff {α : Type} (l : List (String × α)) (key : String) :
    (l.any (fun f => f.1 == key)) = true ↔ ∃ v, List.lookup key l = some v := by
  rcases h : List.lookup key l with _ | v
  · simp only [← any_key_false_iff] at h
    simp [h]
  · constructor
    · exact fun _ => ⟨v, rfl⟩
    · intro _
      by_contra hc
      rw [Bool.not_eq_true] at hc
      rw [(any_key_false_iff l key).1 hc] at h
      cases h

/-! Facts about the string helpers. -/

/-- A prefix of a list occurs as a substring. -/
theorem hasSubstr_of_isPrefixOf (pat s : List Char) (h : pat.isPrefixOf s = true) :
    hasSubstr pat s = true := by
  cases s with
  | nil =>
    rw [List.isPrefixOf_iff_prefix] at h
    simp [List.prefix_nil] at h
    simp [hasSubstr, h, List.isEmpty]
  | cons c rest => simp [hasSubstr, h]

/-- Substring occurrence survives extending the list on the left. -/
theorem hasSubstr_append_right (pat s t : List Char) (h : hasSubstr pat s = true) :
    hasSubstr pat (t ++ s) = true := by
  induction t with
  | nil => simpa using h
  | cons c t' ih => simp [hasSubstr, ih]

/-- Substring occurrence survives extending the list on the right. -/
theorem hasSubstr_append_left (pat s t : List Char) (h : hasSubstr pat s = true) :
    hasSubstr pat (s ++ t) = true := by
  induction s with
  | nil =>
    simp [hasSubstr, List.isEmpty_iff] at h
    subst h
    apply hasSubstr_of_isPrefixOf
    rw [List.isPrefixOf_iff_prefix]
    exact List.nil_prefix
  | cons c s' ih =>
    simp only [hasSubstr, Bool.or_eq_true] at h
    rcases h with h | h
    · apply hasSubstr_of_isPrefixOf
      rw [List.isPrefixOf_iff_prefix] at h ⊢
      exact h.trans (List.prefix_append (c :: s') t)
    · simp only [List.cons_append, hasSubstr, Bool.or_eq_true]
      exact Or.inr (ih h)

/-- A list is a substring of itself. -/
theorem hasSubstr_refl (pat : List Char) : hasSubstr pat pat = true := by
  apply hasSubstr_of_isPrefixOf
  rw [List.isPrefixOf_iff_prefix]

/-- A path segment occurs as a substring of the joined path string. -/
theorem pyIn_joinSegs_of_mem (m : String) (segs : List String) (h : m ∈ segs) :
    pyIn m (joinSegs segs) = true := by
  induction segs with
  | nil => cases h
  | cons s rest ih =>
    cases rest with
    | nil =>
      simp at h
      subst h
      exact hasSubstr_refl _
    | cons t rest' =>
      rcases List.mem_cons.1 h with h | h
      · subst h
        unfold joinSegs pyIn
        rw [String.data_append, String.data_append]
        exact hasSubstr_append_left _ _ _ (hasSubstr_append_left _ _ _ (hasSubstr_refl _))
      · have := ih h
        unfold joinSegs pyIn
        rw [String.data_append]
        exact hasSubstr_append_right _ _ _ this

/-! Facts about the per-entry rewriting loop. -/

/-- isStrEq decides equality with a string literal. -/
theorem isStrEq_true_iff (v : Json) (k : String) : isStrEq v k = true ↔ v = Json.str k := by
  cases v <;> simp [isStrEq]

/-- isStrEq is false exactly on values different from the string. -/
theorem isStrEq_false_iff (v : Json) (k : String) : isStrEq v k = false ↔ v ≠ Json.str k := by
  cases v <;> simp [isStrEq]

/-- Every scope-marked entry of the rewritten mapping carries the
workspace pointer token. -/
theorem fixEntries_normalized (path : String) (l : List (String × Json)) :
    NormalizedMap (fixEntries path l).1 := by
  induction l with
  | nil => intro e he; simp [fixEntries] at he
  | cons f rest ih =>
    obtain ⟨pkg, version⟩ := f
    intro e he hs
    by_cases hc : (pyStartsWith pkg SCOPE && !(isStrEq version WORKSPACE)) = true
    · simp only [fixEntries, hc, if_true] at he
      rcases List.mem_cons.1 he with h | h
      · subst h; rfl
      · exact ih e h hs
    · simp only [fixEntries, hc, if_false, Bool.false_eq_true] at he
      rcases List.mem_cons.1 he with h | h
      · subst h
        simp only [Bool.and_eq_true, Bool.not_eq_true'] at hc
        push_neg at hc
        have := Bool.ne_false_iff.1 (hc hs)
        exact (isStrEq_true_iff version WORKSPACE).1 this
      · exact ih e h hs

/-- Entries at keys outside the scope marker keep their values. -/
theorem fixEntries_lookup_nonscope (path : String) (l : List (String × Json)) (k : String)
    (hk : pyStartsWith k SCOPE = false) :
    List.lookup k (fixEntries path l).1 = List.lookup k l := by
  induction l with
  | nil => simp [fixEntries]
  | cons f rest ih =>
    obtain ⟨pkg, version⟩ := f
    by_cases hc : (pyStartsWith pkg SCOPE && !(isStrEq version WORKSPACE)) = true
    · simp only [fixEntries, hc, if_true]
      have hne : k ≠ pkg := by
        intro h
        subst h
        simp only [Bool.and_eq_true] at hc
        rw [hk] at hc
        cases hc.1
      rw [List.lookup_cons, List.lookup_cons]
      simp only [beq_false_of_ne hne]
      exact ih
    · simp only [fixEntries, hc, if_false, Bool.false_eq_true]
      rw [List.lookup_cons, List.lookup_cons]
      by_cases hke : k = pkg
      · simp [hke]
      · simp only [beq_false_of_ne hke]
        exact ih

/-- When the loop reports no change, the mapping and the log are
untouched. -/
theorem fixEntries_changed_false (path : String) (l : List (String × Json))
    (h : (fixEntries path l).2.1 = false) :
    (fixEntries path l).1 = l ∧ (fixEntries path l).2.2 = [] := by
  induction l with
  | nil => simp [fixEntries]
  | cons f rest ih =>
    obtain ⟨pkg, version⟩ := f
    by_cases hc : (pyStartsWith pkg SCOPE && !(isStrEq version WORKSPACE)) = true
    · simp [fixEntries, hc] at h
    · simp only [fixEntries, hc, if_false, Bool.false_eq_true] at h ⊢
      obtain ⟨h1, h2⟩ := ih h
      simp [h1, h2]

/-- The loop reports a change exactly when some entry is scope-marked
and not yet the workspace pointer token. -/
theorem fixEntries_changed_iff (path : String) (l : List (String × Json)) :
    (fixEntries path l).2.1 = true ↔
      ∃ e ∈ l, pyStartsWith e.1 SCOPE = true ∧ e.2 ≠ Json.str WORKSPACE := by
  induction l with
  | nil => simp [fixEntries]
  | cons f rest ih =>
    obtain ⟨pkg, version⟩ := f
    by_cases hc : (pyStartsWith pkg SCOPE && !(isStrEq version WORKSPACE)) = true
    · simp only [fixEntries, hc, if_true]
      constructor
      · intro _
        refine ⟨(pkg, version), List.mem_cons_self _ _, ?_⟩
        simp only [Bool.and_eq_true, Bool.not_eq_true'] at hc
        exact ⟨hc.1, (isStrEq_false_iff version WORKSPACE).1 hc.2⟩
      · intro _; trivial
    · simp only [fixEntries, hc, if_false, Bool.false_eq_true]
      rw [ih]
      constructor
      · rintro ⟨e, he, h1, h2⟩
        exact ⟨e, List.mem_cons_of_mem _ he, h1, h2⟩
      · rintro ⟨e, he, h1, h2⟩
        rcases List.mem_cons.1 he with h | h
        · exfalso
          subst h
          simp only [Bool.and_eq_true, Bool.not_eq_true'] at hc
          push_neg at hc
          exact h2 ((isStrEq_true_iff version WORKSPACE).1 (Bool.ne_false_iff.1 (hc h1)))
        · exact ⟨e, h, h1, h2⟩

/-- On an already normalized mapping, the loop changes nothing,
reports no change, and logs nothing. -/
theorem fixEntries_of_normalized (path : String) (l : List (String × Json))
    (h : NormalizedMap l) : fixEntries path l = (l, false, []) := by
  induction l with
  | nil => rfl
  | cons f rest ih =>
    obtain ⟨pkg, version⟩ := f
    have hc : (pyStartsWith pkg SCOPE && !(isStrEq version WORKSPACE)) = false := by
      by_cases hs : pyStartsWith pkg SCOPE = true
      · have := h (pkg, version) (List.mem_cons_self _ _) hs
        have : isStrEq version WORKSPACE = true := (isStrEq_true_iff version WORKSPACE).2 this
        simp [this]
      · simp only [Bool.not_eq_true] at hs
        simp [hs]
    have hrest : NormalizedMap rest := fun e he hs => h e (List.mem_cons_of_mem _ he) hs
    simp [fixEntries, hc, ih hrest]

/-- The rewriting loop is idempotent. -/
theorem fixEntries_idem (path : String) (l : List (String × Json)) :
    fixEntries path (fixEntries path l).1 = ((fixEntries path l).1, false, []) :=
  fixEntries_of_normalized path _ (fixEntries_normalized path l)

/-- Every scope-marked entry whose value differs from the token — of
any JSON type — is rewritten to the token. -/
theorem fixEntries_mem_updated (path : String) (l : List (String × Json)) (k : String)
    (v : Json) (he : (k, v) ∈ l) (hk : pyStartsWith k SCOPE = true)
    (hv : v ≠ Json.str WORKSPACE) :
    (k, Json.str WORKSPACE) ∈ (fixEntries path l).1 := by
  induction l with
  | nil => cases he
  | cons f rest ih =>
    obtain ⟨pkg, version⟩ := f
    by_cases hc : (pyStartsWith pkg SCOPE && !(isStrEq version WORKSPACE)) = true
    · simp only [fixEntries, hc, if_true]
      rcases List.mem_cons.1 he with h | h
      · cases h
        exact List.mem_cons_self _ _
      · exact List.mem_cons_of_mem _ (ih h)
    · simp only [fixEntries, hc, if_false, Bool.false_eq_true]
      rcases List.mem_cons.1 he with h | h
      · exfalso
        cases h
        simp only [Bool.and_eq_true, Bool.not_eq_true'] at hc
        push_neg at hc
        exact hv ((isStrEq_true_iff v WORKSPACE).1 (Bool.ne_false_iff.1 (hc hk)))
      · exact List.mem_cons_of_mem _ (ih h)

/-! Facts about one outer-loop iteration. -/

/-- A dependency field that is absent leaves the iteration state
untouched. -/
theorem stepDepType_absent (path dt : String) (fields : List (String × Json)) (ch : Bool)
    (lg : List LogLine) (h : List.lookup dt fields = none) :
    stepDepType path dt (Json.obj fields, ch, lg) = .ok (Json.obj fields, ch, lg) := by
  have ha : (fields.any (fun f => f.1 == dt)) = false := (any_key_false_iff fields dt).2 h
  simp [stepDepType, pyContains, ha]

/-- A dependency field holding an object is replaced by its rewritten
mapping, the changed flag absorbs the loop's flag, and the log lines
are appended. -/
theorem stepDepType_present_obj (path dt : String) (fields : List (String × Json)) (ch : Bool)
    (lg : List LogLine) (m : List (String × Json))
    (h : List.lookup dt fields = some (Json.obj m)) :
    stepDepType path dt (Json.obj fields, ch, lg) =
      .ok (Json.obj (setAssoc fields dt (Json.obj (fixEntries path m).1)),
        ch || (fixEntries path m).2.1, lg ++ (fixEntries path m).2.2) := by
  have ha : (fields.any (fun f => f.1 == dt)) = true := (any_key_true_iff fields dt).2 ⟨_, h⟩
  simp [stepDepType, pyContains, ha, pyGetItem, h, getItems, pySetItem]

/-- A dependency field holding any non-object raises AttributeError
(the .items() call). -/
theorem stepDepType_present_nonobj (path dt : String) (fields : List (String × Json))
    (ch : Bool) (lg : List LogLine) (v : Json) (h : List.lookup dt fields = some v)
    (hv : v.isObj = false) :
    stepDepType path dt (Json.obj fields, ch, lg) = .error PyError.attributeError := by
  have ha : (fields.any (fun f => f.1 == dt)) = true := (any_key_true_iff fields dt).2 ⟨_, h⟩
  cases v with
  | obj m => simp [Json.isObj] at hv
  | null => simp [stepDepType, pyContains, ha, pyGetItem, h, getItems]
  | bool b => simp [stepDepType, pyContains, ha, pyGetItem, h, getItems]
  | num n => simp [stepDepType, pyContains, ha, pyGetItem, h, getItems]
  | str s => simp [stepDepType, pyContains, ha, pyGetItem, h, getItems]
  | arr xs => simp [stepDepType, pyContains, ha, pyGetItem, h, getItems]

/-- Full description of a successful iteration on an object: the data
stays an object, the assigned field (if present) carries the rewritten
mapping, every other key is untouched, and the changed flag and log
grow by the loop's contribution. -/
theorem stepDepType_ok_spec (path dt : String) (fields : List (String × Json)) (ch : Bool)
    (lg : List LogLine) (j2 : Json) (ch2 : Bool) (lg2 : List LogLine)
    (h : stepDepType path dt (Json.obj fields, ch, lg) = .ok (j2, ch2, lg2)) :
    ∃ fields2 c ls, j2 = Json.obj fields2 ∧ ch2 = (ch || c) ∧ lg2 = lg ++ ls ∧
      (∀ k, k ≠ dt → List.lookup k fields2 = List.lookup k fields) ∧
      ((List.lookup dt fields = none ∧ fields2 = fields ∧
          c = false ∧ ls = []) ∨
       (∃ m, List.lookup dt fields = some (Json.obj m) ∧
          fields2 = setAssoc fields dt (Json.obj (fixEntries path m).1) ∧
          c = (fixEntries path m).2.1 ∧ ls = (fixEntries path m).2.2)) := by
  rcases hl : List.lookup dt fields with _ | v
  · rw [stepDepType_absent path dt fields ch lg hl] at h
    injection h with h'
    simp only [Prod.mk.injEq] at h'
    obtain ⟨e1, e2, e3⟩ := h'
    subst e1; subst e2; subst e3
    refine ⟨fields, false, [], rfl, (Bool.or_false ch).symm, (List.append_nil lg).symm,
      fun _ _ => rfl, Or.inl ⟨rfl, rfl, rfl, rfl⟩⟩
  · cases v with
    | obj m =>
      rw [stepDepType_present_obj path dt fields ch lg m hl] at h
      injection h with h'
      simp only [Prod.mk.injEq] at h'
      obtain ⟨e1, e2, e3⟩ := h'
      subst e1; subst e2; subst e3
      refine ⟨setAssoc fields dt (Json.obj (fixEntries path m).1), (fixEntries path m).2.1,
        (fixEntries path m).2.2, rfl, rfl, rfl, ?_, ?_⟩
      · exact fun k hk => lookup_setAssoc_other fields dt k _ hk
      · exact Or.inr ⟨m, rfl, rfl, rfl, rfl⟩
    | null =>
      rw [stepDepType_present_nonobj path dt fields ch lg _ hl rfl] at h
      cases h
    | bool b =>
      rw [stepDepType_present_nonobj path dt fields ch lg _ hl rfl] at h
      cases h
    | num n =>
      rw [stepDepType_present_nonobj path dt fields ch lg _ hl rfl] at h
      cases h
    | str s =>
      rw [stepDepType_present_nonobj path dt fields ch lg _ hl rfl] at h
      cases h
    | arr xs =>
      rw [stepDepType_present_nonobj path dt fields ch lg _ hl rfl] at h
      cases h

/-- An iteration on an object can only fail with AttributeError. -/
theorem stepDepType_error_attr (path dt : String) (fields : List (String × Json)) (ch : Bool)
    (lg : List LogLine) (e : PyError)
    (h : stepDepType path dt (Json.obj fields, ch, lg) = .error e) :
    e = PyError.attributeError := by
  rcases hl : List.lookup dt fields with _ | v
  · rw [stepDepType_absent path dt fields ch lg hl] at h
    cases h
  · cases v with
    | obj m =>
      rw [stepDepType_present_obj path dt fields ch lg m hl] at h
      cases h
    | null =>
      rw [stepDepType_present_nonobj path dt fields ch lg _ hl rfl] at h
      injection h with h'
      exact h'.symm
    | bool b =>
      rw [stepDepType_present_nonobj path dt fields ch lg _ hl rfl] at h
      injection h with h'
      exact h'.symm
    | num n =>
      rw [stepDepType_present_nonobj path dt fields ch lg _ hl rfl] at h
      injection h with h'
      exact h'.symm
    | str s =>
      rw [stepDepType_present_nonobj path dt fields ch lg _ hl rfl] at h
      injection h with h'
      exact h'.symm
    | arr xs =>
      rw [stepDepType_present_nonobj path dt fields ch lg _ hl rfl] at h
      injection h with h'
      exact h'.symm

/-- An iteration on a settled object is the identity. -/
theorem stepDepType_settled (path dt : String) (fields : List (String × Json)) (ch : Bool)
    (lg : List LogLine)
    (h : List.lookup dt fields = none ∨
      ∃ m, List.lookup dt fields = some (Json.obj m) ∧ NormalizedMap m) :
    stepDepType path dt (Json.obj fields, ch, lg) = .ok (Json.obj fields, ch, lg) := by
  rcases h with h | ⟨m, hm, hn⟩
  · exact stepDepType_absent path dt fields ch lg h
  · rw [stepDepType_present_obj path dt fields ch lg m hm]
    rw [fixEntries_of_normalized path m hn]
    simp [setAssoc_eq_self fields dt (Json.obj m) hm]

/-- A successful iteration whose state value is not an object left the
state untouched, and does so on any path. -/
theorem stepDepType_nonobjTop_ok (path dt : String) (j : Json) (ch : Bool) (lg : List LogLine)
    (out : Json × Bool × List LogLine) (hj : j.isObj = false)
    (h : stepDepType path dt (j, ch, lg) = .ok out) :
    out = (j, ch, lg) ∧ ∀ p', stepDepType p' dt (j, ch, lg) = .ok (j, ch, lg) := by
  cases j with
  | obj m => simp [Json.isObj] at hj
  | null => simp [stepDepType, pyContains] at h
  | bool b => simp [stepDepType, pyContains] at h
  | num n => simp [stepDepType, pyContains] at h
  | str s =>
    cases hc : pyIn dt s with
    | false =>
      simp only [stepDepType, pyContains, hc] at h
      injection h with h'
      exact ⟨h'.symm, fun p' => by simp [stepDepType, pyContains, hc]⟩
    | true => simp [stepDepType, pyContains, hc, pyGetItem] at h
  | arr xs =>
    cases hc : xs.any (fun x => isStrEq x dt) with
    | false =>
      simp only [stepDepType, pyContains, hc] at h
      injection h with h'
      exact ⟨h'.symm, fun p' => by simp [stepDepType, pyContains, hc]⟩
    | true => simp [stepDepType, pyContains, hc, pyGetItem] at h

/-! Facts about the whole scan phase. -/

/-- isObj characterizes the object constructor. -/
theorem isObj_true_iff (j : Json) : j.isObj = true ↔ ∃ fields, j = Json.obj fields := by
  cases j <;> simp [Json.isObj]

/-- A successful scan decomposes into three successful iterations. -/
theorem fixData_ok_elim (path : String) (j : Json) (out : Json × Bool × List LogLine)
    (h : fixData path j = .ok out) :
    ∃ st1 st2, stepDepType path "dependencies" (j, false, []) = .ok st1 ∧
      stepDepType path "devDependencies" st1 = .ok st2 ∧
      stepDepType path "peerDependencies" st2 = .ok out := by
  rcases h1 : stepDepType path "dependencies" (j, false, []) with e1 | st1
  · simp only [fixData, h1] at h
    cases h
  · simp only [fixData, h1] at h
    rcases h2 : stepDepType path "devDependencies" st1 with e2 | st2
    · simp only [h2] at h
      cases h
    · simp only [h2] at h
      exact ⟨st1, st2, rfl, h2, h⟩

/-- Full description of a successful scan of a JSON object: the result
is an object; keys outside the three dependency fields keep their
values; each dependency field is absent on both sides or maps to the
rewritten form of its original mapping; the changed flag is set exactly
when some present mapping had a rewritable entry; and an unchanged scan
returns the object and an empty log. -/
theorem fixData_obj_spec (path : String) (fields : List (String × Json)) (j' : Json)
    (ch : Bool) (lg : List LogLine)
    (h : fixData path (Json.obj fields) = .ok (j', ch, lg)) :
    ∃ fields', j' = Json.obj fields' ∧
      (∀ k, k ∉ DEP_TYPES → List.lookup k fields' = List.lookup k fields) ∧
      (∀ dt ∈ DEP_TYPES,
        (List.lookup dt fields = none ∧ List.lookup dt fields' = none) ∨
        (∃ m, List.lookup dt fields = some (Json.obj m) ∧
          List.lookup dt fields' = some (Json.obj (fixEntries path m).1))) ∧
      (ch = true ↔ ∃ dt ∈ DEP_TYPES, ∃ m, List.lookup dt fields = some (Json.obj m) ∧
        (fixEntries path m).2.1 = true) ∧
      (ch = false → j' = Json.obj fields ∧ lg = []) := by
  obtain ⟨st1, st2, h1, h2, h3⟩ := fixData_ok_elim path _ _ h
  obtain ⟨j1, ch1, lg1⟩ := st1
  obtain ⟨f1, c1, ls1, rfl, rfl, rfl, hp1, hd1⟩ :=
    stepDepType_ok_spec path "dependencies" fields false [] j1 ch1 lg1 h1
  obtain ⟨j2, ch2, lg2⟩ := st2
  obtain ⟨f2, c2, ls2, rfl, rfl, rfl, hp2, hd2⟩ :=
    stepDepType_ok_spec path "devDependencies" f1 ch1 lg1 j2 ch2 lg2 h2
  obtain ⟨f3, c3, ls3, rfl, rfl, rfl, hp3, hd3⟩ :=
    stepDepType_ok_spec path "peerDependencies" f2 (ch1 || c2) (lg1 ++ ls2) j' ch lg h3
  refine ⟨f3, rfl, ?_, ?_, ?_, ?_⟩
  · intro k hk
    simp only [DEP_TYPES, List.mem_cons, List.not_mem_nil, or_false, not_or] at hk
    obtain ⟨hk1, hk2, hk3⟩ := hk
    rw [hp3 k hk3, hp2 k hk2, hp1 k hk1]
  · intro dt hdt
    simp only [DEP_TYPES, List.mem_cons, List.not_mem_nil, or_false] at hdt
    rcases hdt with rfl | rfl | rfl
    · rcases hd1 with ⟨ha, hf, _, _⟩ | ⟨m, ha, hf, _, _⟩
      · refine Or.inl ⟨ha, ?_⟩
        rw [hp3 _ (by decide), hp2 _ (by decide), hf]
        exact ha
      · refine Or.inr ⟨m, ha, ?_⟩
        rw [hp3 _ (by decide), hp2 _ (by decide), hf]
        exact lookup_setAssoc_self fields _ _
    · rcases hd2 with ⟨ha, hf, _, _⟩ | ⟨m, ha, hf, _, _⟩
      · refine Or.inl ⟨(hp1 _ (by decide)).symm.trans ha, ?_⟩
        rw [hp3 _ (by decide), hf]
        exact ha
      · refine Or.inr ⟨m, (hp1 _ (by decide)).symm.trans ha, ?_⟩
        rw [hp3 _ (by decide), hf]
        exact lookup_setAssoc_self f1 _ _
    · rcases hd3 with ⟨ha, hf, _, _⟩ | ⟨m, ha, hf, _, _⟩
      · refine Or.inl ⟨((hp1 _ (by decide)).symm.trans ((hp2 _ (by decide)).symm.trans ha)
          : _ = none), ?_⟩
        rw [hf]
        exact ha
      · refine Or.inr ⟨m, (hp1 _ (by decide)).symm.trans ((hp2 _ (by decide)).symm.trans ha), ?_⟩
        rw [hf]
        exact lookup_setAssoc_self f2 _ _
  · constructor
    · intro hch
      rw [Bool.or_eq_true, Bool.or_eq_true] at hch
      rcases hch with (hc1 | hc2) | hc3
      · rcases hd1 with ⟨_, _, hc, _⟩ | ⟨m, ha, _, hc, _⟩
        · rw [hc] at hc1; cases hc1
        · exact ⟨"dependencies", by simp [DEP_TYPES], m, ha, hc ▸ hc1⟩
      · rcases hd2 with ⟨_, _, hc, _⟩ | ⟨m, ha, _, hc, _⟩
        · rw [hc] at hc2; cases hc2
        · exact ⟨"devDependencies", by simp [DEP_TYPES], m,
            (hp1 _ (by decide)).symm.trans ha, hc ▸ hc2⟩
      · rcases hd3 with ⟨_, _, hc, _⟩ | ⟨m, ha, _, hc, _⟩
        · rw [hc] at hc3; cases hc3
        · exact ⟨"peerDependencies", by simp [DEP_TYPES], m,
            (hp1 _ (by decide)).symm.trans ((hp2 _ (by decide)).symm.trans ha), hc ▸ hc3⟩
    · rintro ⟨dt, hdt, m, hm, hmch⟩
      simp only [DEP_TYPES, List.mem_cons, List.not_mem_nil, or_false] at hdt
      rcases hdt with rfl | rfl | rfl
      · rcases hd1 with ⟨ha, _, _, _⟩ | ⟨m', ha', _, hc', _⟩
        · rw [ha] at hm; cases hm
        · have hmm : Json.obj m' = Json.obj m := by
            have := ha'.symm.trans hm
            injection this
          injection hmm with hmm'
          subst hmm'
          simp [hc', hmch]
      · rcases hd2 with ⟨ha, _, _, _⟩ | ⟨m', ha', _, hc', _⟩
        · rw [hp1 _ (by decide)] at ha
          rw [ha] at hm; cases hm
        · rw [hp1 _ (by decide)] at ha'
          have hmm : Json.obj m' = Json.obj m := by
            have := ha'.symm.trans hm
            injection this
          injection hmm with hmm'
          subst hmm'
          simp [hc', hmch]
      · rcases hd3 with ⟨ha, _, _, _⟩ | ⟨m', ha', _, hc', _⟩
        · rw [hp2 _ (by decide), hp1 _ (by decide)] at ha
          rw [ha] at hm; cases hm
        · rw [hp2 _ (by decide), hp1 _ (by decide)] at ha'
          have hmm : Json.obj m' = Json.obj m := by
            have := ha'.symm.trans hm
            injection this
          injection hmm with hmm'
          subst hmm'
          simp [hc', hmch]
  · intro hch
    rw [Bool.or_eq_false_iff, Bool.or_eq_false_iff] at hch
    obtain ⟨⟨hc1, hc2⟩, hc3⟩ := hch
    have hstep1 : f1 = fields ∧ lg1 = [] := by
      rcases hd1 with ⟨_, hf, _, hl⟩ | ⟨m, ha, hf, hc, hl⟩
      · exact ⟨hf, hl⟩
      · obtain ⟨hm1, hm2⟩ := fixEntries_changed_false path m (hc.symm.trans hc1)
        constructor
        · rw [hf, hm1, setAssoc_eq_self fields _ _ ha]
        · rw [hl, hm2]
    have hstep2 : f2 = f1 ∧ ls2 = [] := by
      rcases hd2 with ⟨_, hf, _, hl⟩ | ⟨m, ha, hf, hc, hl⟩
      · exact ⟨hf, hl⟩
      · obtain ⟨hm1, hm2⟩ := fixEntries_changed_false path m (hc.symm.trans hc2)
        constructor
        · rw [hf, hm1, setAssoc_eq_self f1 _ _ ha]
        · rw [hl, hm2]
    have hstep3 : f3 = f2 ∧ ls3 = [] := by
      rcases hd3 with ⟨_, hf, _, hl⟩ | ⟨m, ha, hf, hc, hl⟩
      · exact ⟨hf, hl⟩
      · obtain ⟨hm1, hm2⟩ := fixEntries_changed_false path m (hc.symm.trans hc3)
        constructor
        · rw [hf, hm1, setAssoc_eq_self f2 _ _ ha]
        · rw [hl, hm2]
    refine ⟨?_, ?_⟩
    · rw [hstep3.1, hstep2.1, hstep1.1]
    · rw [hstep1.2, hstep2.2, hstep3.2]
      rfl

/-- A scan of a settled object succeeds, reports no change, logs
nothing, and returns the object unchanged. -/
theorem fixData_of_settled (path : String) (fields : List (String × Json))
    (h : Settled fields) :
    fixData path (Json.obj fields) = .ok (Json.obj fields, false, []) := by
  have s1 := stepDepType_settled path "dependencies" fields false []
    (h _ (by simp [DEP_TYPES]))
  have s2 := stepDepType_settled path "devDependencies" fields false []
    (h _ (by simp [DEP_TYPES]))
  have s3 := stepDepType_settled path "peerDependencies" fields false []
    (h _ (by simp [DEP_TYPES]))
  simp [fixData, s1, s2, s3]

/-- A successful scan leaves the object settled. -/
theorem fixData_ok_settled (path : String) (fields : List (String × Json)) (j' : Json)
    (ch : Bool) (lg : List LogLine)
    (h : fixData path (Json.obj fields) = .ok (j', ch, lg)) :
    ∃ fields', j' = Json.obj fields' ∧ Settled fields' := by
  obtain ⟨fields', hj, _, hdep, _, _⟩ := fixData_obj_spec path fields j' ch lg h
  refine ⟨fields', hj, ?_⟩
  intro dt hdt
  rcases hdep dt hdt with ⟨_, hb⟩ | ⟨m, _, hb⟩
  · exact Or.inl hb
  · exact Or.inr ⟨(fixEntries path m).1, hb, fixEntries_normalized path m⟩

/-- A scan of an object can only fail with AttributeError. -/
theorem fixData_obj_error_attr (path : String) (fields : List (String × Json)) (e : PyError)
    (h : fixData path (Json.obj fields) = .error e) : e = PyError.attributeError := by
  rcases h1 : stepDepType path "dependencies" (Json.obj fields, false, []) with e1 | st1
  · simp only [fixData, h1] at h
    injection h with h'
    rw [← h']
    exact stepDepType_error_attr path _ fields false [] e1 h1
  · obtain ⟨j1, ch1, lg1⟩ := st1
    obtain ⟨f1, c1, ls1, rfl, rfl, rfl, _, _⟩ :=
      stepDepType_ok_spec path "dependencies" fields false [] j1 ch1 lg1 h1
    simp only [fixData, h1] at h
    rcases h2 : stepDepType path "devDependencies" (Json.obj f1, ch1, lg1) with e2 | st2
    · simp only [h2] at h
      injection h with h'
      rw [← h']
      exact stepDepType_error_attr path _ f1 ch1 lg1 e2 h2
    · obtain ⟨j2, ch2, lg2⟩ := st2
      obtain ⟨f2, c2, ls2, rfl, rfl, rfl, _, _⟩ :=
        stepDepType_ok_spec path "devDependencies" f1 ch1 lg1 j2 ch2 lg2 h2
      simp only [h2] at h
      exact stepDepType_error_attr path _ f2 (ch1 || c2) (lg1 ++ ls2) e h

/-- A recognized dependency field holding a non-object makes the scan
raise AttributeError. -/
theorem fixData_obj_shape_violation (path dt : String) (fields : List (String × Json))
    (v : Json) (hdt : dt ∈ DEP_TYPES) (hv : List.lookup dt fields = some v)
    (hobj : v.isObj = false) :
    fixData path (Json.obj fields) = .error PyError.attributeError := by
  rcases hres : fixData path (Json.obj fields) with e | out
  · rw [fixData_obj_error_attr path fields e hres]
  · exfalso
    obtain ⟨j', ch, lg⟩ := out
    obtain ⟨fields', _, _, hdep, _, _⟩ := fixData_obj_spec path fields j' ch lg hres
    rcases hdep dt hdt with ⟨ha, _⟩ | ⟨m, ha, _⟩
    · rw [hv] at ha
      cases ha
    · rw [hv] at ha
      injection ha with ha'
      rw [ha'] at hobj
      simp [Json.isObj] at hobj

/-- A successful scan of a non-object top level changed nothing and
succeeds identically on every path. -/
theorem fixData_nonobjTop_ok (path : String) (j : Json) (out : Json × Bool × List LogLine)
    (hj : j.isObj = false) (h : fixData path j = .ok out) :
    out = (j, false, []) ∧ ∀ p', fixData p' j = .ok (j, false, []) := by
  obtain ⟨st1, st2, h1, h2, h3⟩ := fixData_ok_elim path j out h
  obtain ⟨e1, g1⟩ := stepDepType_nonobjTop_ok path _ j false [] st1 hj h1
  subst e1
  obtain ⟨e2, g2⟩ := stepDepType_nonobjTop_ok path _ j false [] st2 hj h2
  subst e2
  obtain ⟨e3, g3⟩ := stepDepType_nonobjTop_ok path _ j false [] out hj h3
  exact ⟨e3, fun p' => by simp [fixData, g1 p', g2 p', g3 p']⟩

/-- The scan phase is idempotent, on any path: rescanning the value a
successful scan produced changes nothing and logs nothing. -/
theorem fixData_idem (path p' : String) (j j' : Json) (ch : Bool) (lg : List LogLine)
    (h : fixData path j = .ok (j', ch, lg)) :
    fixData p' j' = .ok (j', false, []) := by
  rcases hobj : j.isObj with _ | _
  · obtain ⟨e, _⟩ := fixData_nonobjTop_ok path j (j', ch, lg) hobj h
    injection e with e1 e2
    injection e2 with e2 e3
    subst e1
    subst e2
    subst e3
    obtain ⟨_, g⟩ := fixData_nonobjTop_ok path _ _ hobj h
    exact g p'
  · obtain ⟨fields, rfl⟩ := (isObj_true_iff j).1 hobj
    obtain ⟨fields', rfl, hsettled⟩ := fixData_ok_settled path fields j' ch lg h
    exact fixData_of_settled p' fields' hsettled

/-- A scan reporting no change returns its input and an empty log. -/
theorem fixData_unchanged (path : String) (j j' : Json) (lg : List LogLine)
    (h : fixData path j = .ok (j', false, lg)) : j' = j ∧ lg = [] := by
  rcases hobj : j.isObj with _ | _
  · obtain ⟨e, _⟩ := fixData_nonobjTop_ok path j (j', false, lg) hobj h
    injection e with e1 e2
    injection e2 with e2 e3
    exact ⟨e1, e3⟩
  · obtain ⟨fields, rfl⟩ := (isObj_true_iff j).1 hobj
    obtain ⟨fields', _, _, _, _, hunch⟩ := fixData_obj_spec path fields j' false lg h
    exact hunch rfl

/-! Facts about the per-file operation. -/

/-- A file that fails to parse is reported by path and left untouched,
with no write, and the call succeeds. -/
theorem fix_dependencies_malformed (path raw : String) :
    fix_dependencies path (.malformed raw) =
      .ok ⟨.malformed raw, false, [LogLine.decodeError path]⟩ := rfl

/-- A successful call on a parsed file decomposes into a successful
scan followed by the conditional write. -/
theorem fix_dependencies_parsed_elim (path : String) (j : Json) (raw : String) (r : FixResult)
    (h : fix_dependencies path (.parsed j raw) = .ok r) :
    ∃ j' ch lg, fixData path j = .ok (j', ch, lg) ∧
      ((ch = true ∧ r = ⟨.parsed j' (writtenBytes j'), true, lg⟩) ∨
       (ch = false ∧ r = ⟨.parsed j raw, false, lg⟩)) := by
  rcases hf : fixData path j with e | ⟨j', ch, lg⟩
  · simp only [fix_dependencies, hf] at h
    cases h
  · cases ch with
    | true =>
      have hval : fix_dependencies path (.parsed j raw) =
          .ok ⟨.parsed j' (writtenBytes j'), true, lg⟩ := by
        simp [fix_dependencies, hf]
      rw [hval] at h
      injection h with h'
      exact ⟨j', true, lg, rfl, Or.inl ⟨rfl, h'.symm⟩⟩
    | false =>
      have hval : fix_dependencies path (.parsed j raw) =
          .ok ⟨.parsed j raw, false, lg⟩ := by
        simp [fix_dependencies, hf]
      rw [hval] at h
      injection h with h'
      exact ⟨j', false, lg, rfl, Or.inr ⟨rfl, h'.symm⟩⟩

/-- After a successful call the resulting content is a fixed point: a
later call (on any path) returns it unchanged with no write. -/
theorem fix_dependencies_ok_settles (path : String) (c : FileContent) (r : FixResult)
    (h : fix_dependencies path c = .ok r) :
    ∀ p', ∃ lg', fix_dependencies p' r.content = .ok ⟨r.content, false, lg'⟩ := by
  intro p'
  cases c with
  | malformed raw =>
    rw [fix_dependencies_malformed] at h
    injection h with h'
    subst h'
    exact ⟨[LogLine.decodeError p'], rfl⟩
  | parsed j raw =>
    obtain ⟨j', ch, lg, hf, hcase⟩ := fix_dependencies_parsed_elim path j raw r h
    rcases hcase with ⟨hch, hr⟩ | ⟨hch, hr⟩
    · subst hch
      subst hr
      have hidem := fixData_idem path p' j j' true lg hf
      exact ⟨[], by simp [fix_dependencies, hidem]⟩
    · subst hch
      subst hr
      obtain ⟨hj, _⟩ := fixData_unchanged path j j' lg hf
      subst hj
      have hidem := fixData_idem path p' j' j' false lg hf
      exact ⟨[], by simp [fix_dependencies, hidem]⟩

/-! Facts about the serializer output. -/

/-- A string ending in a closing brace then a newline has exactly one
trailing newline. -/
theorem trailingNewlines_append_rbrace (s : String) :
    trailingNewlines (s ++ "\x7d" ++ "\n") = 1 := by
  unfold trailingNewlines
  rw [String.data_append, String.data_append]
  have h1 : ("\x7d" : String).data = ['}'] := rfl
  have h2 : ("\n" : String).data = ['\n'] := rfl
  rw [h1, h2]
  simp only [List.reverse_append, List.reverse_cons, List.reverse_nil, List.nil_append,
    List.cons_append, List.append_nil]
  rw [List.takeWhile_cons_of_pos (by decide), List.takeWhile_cons_of_neg (by decide)]
  rfl

/-- The bytes written for an object end with exactly one newline. -/
theorem trailingNewlines_writtenBytes_obj (fields : List (String × Json)) :
    trailingNewlines (writtenBytes (Json.obj fields)) = 1 := by
  cases fields with
  | nil => decide
  | cons f fs =>
    show trailingNewlines
      (("\x7b\n" ++ dumpFields 2 (f :: fs) ++ "\n" ++ pad 0 ++ "\x7d") ++ "\n") = 1
    have : ("\x7b\n" ++ dumpFields 2 (f :: fs) ++ "\n" ++ pad 0 ++ "\x7d")
        = ("\x7b\n" ++ dumpFields 2 (f :: fs) ++ "\n" ++ pad 0) ++ "\x7d" := rfl
    rw [this]
    exact trailingNewlines_append_rbrace _

/-! Facts about the processing loop of main. -/

/-- Paths not in the processed list keep their store entry. -/
theorem processFiles_not_mem (ps : List String) (st : Store) (q : String)
    (out : Store × List LogLine × Nat) (hq : q ∉ ps) (h : processFiles ps st = .ok out) :
    List.lookup q out.1 = List.lookup q st := by
  induction ps generalizing st out with
  | nil =>
    simp only [processFiles] at h
    injection h with h'
    rw [← h']
  | cons p rest ih =>
    have hq1 : q ≠ p := fun hh => hq (hh ▸ List.mem_cons_self p rest)
    have hq2 : q ∉ rest := fun hh => hq (List.mem_cons_of_mem p hh)
    simp only [processFiles] at h
    rcases hl : List.lookup p st with _ | c
    · simp only [hl] at h
      cases h
    · simp only [hl] at h
      rcases hfix : fix_dependencies p c with e | r
      · simp only [hfix] at h
        cases h
      · simp only [hfix] at h
        rcases hrec : processFiles rest (setAssoc st p r.content) with e | ⟨st2, logs, n⟩
        · simp only [hrec] at h
          cases h
        · simp only [hrec] at h
          injection h with h'
          rw [← h']
          have := ih (setAssoc st p r.content) (st2, logs, n) hq2 hrec
          simpa [lookup_setAssoc_other st p q r.content hq1] using this

/-- Every processed path ends the run holding settled content. -/
theorem processFiles_settled (ps : List String) (st : Store)
    (out : Store × List LogLine × Nat) (h : processFiles ps st = .ok out) :
    ∀ p ∈ ps, ∃ c, List.lookup p out.1 = some c ∧
      ∀ p2, ∃ lg, fix_dependencies p2 c = .ok ⟨c, false, lg⟩ := by
  induction ps generalizing st out with
  | nil =>
    intro p hp
    cases hp
  | cons p rest ih =>
    intro q hq
    simp only [processFiles] at h
    rcases hl : List.lookup p st with _ | c
    · simp only [hl] at h
      cases h
    · simp only [hl] at h
      rcases hfix : fix_dependencies p c with e | r
      · simp only [hfix] at h
        cases h
      · simp only [hfix] at h
        rcases hrec : processFiles rest (setAssoc st p r.content) with e | ⟨st2, logs, n⟩
        · simp only [hrec] at h
          cases h
        · simp only [hrec] at h
          injection h with h'
          by_cases hq2 : q ∈ rest
          · have := ih _ _ hrec q hq2
            rw [← h']
            exact this
          · have hqp : q = p := by
              rcases List.mem_cons.1 hq with hh | hh
              · exact hh
              · exact absurd hh hq2
            subst hqp
            refine ⟨r.content, ?_, fix_dependencies_ok_settles q c r hfix⟩
            rw [← h']
            have := processFiles_not_mem rest (setAssoc st q r.content) q (st2, logs, n)
              hq2 hrec
            rw [this, lookup_setAssoc_self]

/-- Processing a list of paths whose store entries are all settled
returns the store unchanged and performs zero writes. -/
theorem processFiles_of_settled (ps : List String) (st : Store)
    (h : ∀ p ∈ ps, ∃ c, List.lookup p st = some c ∧
      ∀ p2, ∃ lg, fix_dependencies p2 c = .ok ⟨c, false, lg⟩) :
    ∃ logs, processFiles ps st = .ok (st, logs, 0) := by
  induction ps with
  | nil => exact ⟨[], rfl⟩
  | cons p rest ih =>
    obtain ⟨c, hc, hsettle⟩ := h p (List.mem_cons_self p rest)
    obtain ⟨lg, hfix⟩ := hsettle p
    obtain ⟨logs, hrec⟩ := ih (fun q hq => h q (List.mem_cons_of_mem _ hq))
    refine ⟨lg ++ logs, ?_⟩
    have hset : setAssoc st p c = st := setAssoc_eq_self st p c hc
    simp only [processFiles, hc, hfix, hset, hrec]
    rfl

/-! Facts about discovery. -/

/-- Membership in the discovered list: exactly the manifest paths of
walk entries that are not skipped by the substring test and directly
contain package.json. -/
theorem mem_discover_iff (w : List WalkEntry) (p : String) :
    p ∈ discover w ↔ ∃ e ∈ w, pyIn EXCLUDED (joinSegs e.segs) = false ∧
      e.files.contains "package.json" = true ∧ p = manifestPath e := by
  unfold discover
  rw [List.mem_map]
  constructor
  · rintro ⟨e, he, rfl⟩
    rw [List.mem_filter] at he
    obtain ⟨hw, hcond⟩ := he
    rw [Bool.and_eq_true] at hcond
    obtain ⟨h1, h2⟩ := hcond
    rw [Bool.not_eq_true'] at h1
    exact ⟨e, hw, h1, h2, rfl⟩
  · rintro ⟨e, hw, h1, h2, rfl⟩
    refine ⟨e, ?_, rfl⟩
    rw [List.mem_filter]
    refine ⟨hw, ?_⟩
    rw [Bool.and_eq_true, Bool.not_eq_true']
    exact ⟨h1, h2⟩

/-- After a successful per-file call on a parsed object, the resulting
content is a parsed object whose dependency fields are settled. -/
theorem fix_dependencies_content_settled (path : String) (fields : List (String × Json))
    (raw : String) (r : FixResult)
    (h : fix_dependencies path (.parsed (Json.obj fields) raw) = .ok r) :
    ∃ fields2 raw2, r.content = .parsed (Json.obj fields2) raw2 ∧ Settled fields2 := by
  obtain ⟨j', ch, lg, hf, hcase⟩ := fix_dependencies_parsed_elim path _ raw r h
  obtain ⟨f2, hj, hsettled⟩ := fixData_ok_settled path fields j' ch lg hf
  rcases hcase with ⟨_, hr⟩ | ⟨hch, hr⟩
  · subst hr
    subst hj
    exact ⟨f2, writtenBytes (Json.obj f2), rfl, hsettled⟩
  · subst hr
    subst hch
    obtain ⟨hjj, _⟩ := fixData_unchanged path _ j' lg hf
    rw [hjj] at hj
    injection hj with hj'
    rw [← hj'] at hsettled
    exact ⟨fields, raw, rfl, hsettled⟩

/-! Claim theorems. -/

/-- C1: for every manifest that parses as a JSON object, after
normalize-one-manifest completes, every entry of each recognized
dependency mapping of the resulting content whose package name starts
with the internal scope marker has the workspace pointer token as its
version specifier. -/
theorem claim_C1 (path : String) (fields fields2 m2 : List (String × Json))
    (raw raw2 : String) (r : FixResult) (dt : String)
    (h : fix_dependencies path (.parsed (Json.obj fields) raw) = .ok r)
    (hc : r.content = .parsed (Json.obj fields2) raw2)
    (hdt : dt ∈ DEP_TYPES)
    (hm : List.lookup dt fields2 = some (Json.obj m2)) :
    NormalizedMap m2 := by
  obtain ⟨f2, r2, hcont, hsettled⟩ := fix_dependencies_content_settled path fields raw r h
  rw [hc] at hcont
  injection hcont with h1 h2
  injection h1 with h1'
  subst h1'
  rcases hsettled dt hdt with hnone | ⟨m, hsome, hnorm⟩
  · rw [hm] at hnone
    cases hnone
  · rw [hm] at hsome
    injection hsome with h3
    injection h3 with h3'
    rw [← h3'] at hnorm
    exact hnorm

/-- Witness for C1 at a concrete manifest with one internal entry. -/
theorem claim_C1_witness : NormalizedMap [("@styx/core", Json.str "workspace:*")] :=
  claim_C1 "p" [("dependencies", Json.obj [("@styx/core", Json.str "^1.0.0")])]
    [("dependencies", Json.obj [("@styx/core", Json.str "workspace:*")])]
    [("@styx/core", Json.str "workspace:*")] "raw"
    (writtenBytes (Json.obj [("dependencies",
      Json.obj [("@styx/core", Json.str "workspace:*")])]))
    ⟨.parsed (Json.obj [("dependencies", Json.obj [("@styx/core", Json.str "workspace:*")])])
       (writtenBytes (Json.obj [("dependencies",
         Json.obj [("@styx/core", Json.str "workspace:*")])])),
     true, [LogLine.updating "@styx/core" "p" (Json.str "^1.0.0") "workspace:*"]⟩
    "dependencies" rfl rfl (by decide) rfl

/-- C2: a malformed manifest is reported by a message naming its path,
its content is left unchanged with no write, and the call succeeds so
the run continues; in the concrete two-file scenario the invalid file
stays byte-identical, its error is logged, and the valid file is still
normalized with one write. -/
theorem claim_C2 :
    (∀ path raw, fix_dependencies path (FileContent.malformed raw) =
      .ok ⟨FileContent.malformed raw, false, [LogLine.decodeError path]⟩) ∧
    runMain
      [⟨[".", "brokenpkg"], ["package.json"]⟩, ⟨[".", "goodpkg"], ["package.json"]⟩]
      [("./brokenpkg/package.json", FileContent.malformed "not valid json"),
       ("./goodpkg/package.json", FileContent.parsed
         (Json.obj [("dependencies", Json.obj [("@styx/core", Json.str "^1.0.0"),
           ("lodash", Json.str "^4.0.0")])]) "original")] =
      .ok ([("./brokenpkg/package.json", FileContent.malformed "not valid json"),
        ("./goodpkg/package.json", FileContent.parsed
          (Json.obj [("dependencies", Json.obj [("@styx/core", Json.str "workspace:*"),
            ("lodash", Json.str "^4.0.0")])])
          (writtenBytes (Json.obj [("dependencies",
            Json.obj [("@styx/core", Json.str "workspace:*"),
              ("lodash", Json.str "^4.0.0")])])))],
        [LogLine.decodeError "./brokenpkg/package.json",
         LogLine.updating "@styx/core" "./goodpkg/package.json"
           (Json.str "^1.0.0") "workspace:*"],
        1) :=
  ⟨fun _ _ => rfl, rfl⟩

/-- C3: the run is idempotent: a second run over the state a first run
produced changes no file and performs zero writes. -/
theorem claim_C3 (w : List WalkEntry) (store store1 : Store) (logs1 : List LogLine) (n1 : Nat)
    (h : runMain w store = .ok (store1, logs1, n1)) :
    ∃ logs2, runMain w store1 = .ok (store1, logs2, 0) := by
  have hs := processFiles_settled (discover w) store (store1, logs1, n1) h
  exact processFiles_of_settled (discover w) store1 (fun p hp => hs p hp)

/-- Witness for C3 at a concrete one-manifest tree. -/
theorem claim_C3_witness :
    runMain [⟨[".", "pkg"], ["package.json"]⟩]
      [("./pkg/package.json", FileContent.parsed
        (Json.obj [("dependencies", Json.obj [("@styx/core", Json.str "workspace:*")])])
        (writtenBytes (Json.obj [("dependencies",
          Json.obj [("@styx/core", Json.str "workspace:*")])])))] =
    .ok ([("./pkg/package.json", FileContent.parsed
        (Json.obj [("dependencies", Json.obj [("@styx/core", Json.str "workspace:*")])])
        (writtenBytes (Json.obj [("dependencies",
          Json.obj [("@styx/core", Json.str "workspace:*")])])))], [], 0) := by
  obtain ⟨logs2, h2⟩ := claim_C3 [⟨[".", "pkg"], ["package.json"]⟩]
    [("./pkg/package.json", FileContent.parsed
      (Json.obj [("dependencies", Json.obj [("@styx/core", Json.str "1.0.0")])]) "x")]
    [("./pkg/package.json", FileContent.parsed
      (Json.obj [("dependencies", Json.obj [("@styx/core", Json.str "workspace:*")])])
      (writtenBytes (Json.obj [("dependencies",
        Json.obj [("@styx/core", Json.str "workspace:*")])])))]
    [LogLine.updating "@styx/core" "./pkg/package.json" (Json.str "1.0.0") "workspace:*"]
    1 rfl
  rw [h2]
  exact h2.symm.trans rfl

/-- C4: every dependency entry whose package name does not start with
the scope marker keeps its version specifier, and every top-level field
other than the three recognized dependency mappings passes through with
its parsed value unchanged. -/
theorem claim_C4 (path : String) (fields fields2 : List (String × Json)) (raw raw2 : String)
    (r : FixResult)
    (h : fix_dependencies path (.parsed (Json.obj fields) raw) = .ok r)
    (hc : r.content = .parsed (Json.obj fields2) raw2) :
    (∀ k, k ∉ DEP_TYPES → List.lookup k fields2 = List.lookup k fields) ∧
    (∀ dt ∈ DEP_TYPES, ∀ m m2, List.lookup dt fields = some (Json.obj m) →
      List.lookup dt fields2 = some (Json.obj m2) →
      ∀ k, pyStartsWith k SCOPE = false → List.lookup k m2 = List.lookup k m) := by
  obtain ⟨j', ch, lg, hf, hcase⟩ := fix_dependencies_parsed_elim path _ raw r h
  rcases hcase with ⟨hch, hr⟩ | ⟨hch, hr⟩
  · subst hr
    injection hc with h1 h2
    subst h1
    obtain ⟨f2, hj2, hother, hdep, _, _⟩ := fixData_obj_spec path fields _ ch lg hf
    injection hj2 with hj2'
    subst hj2'
    constructor
    · exact hother
    · intro dt hdt m m2 hm hm2 k hk
      rcases hdep dt hdt with ⟨ha, _⟩ | ⟨mm, ha, hb⟩
      · rw [hm] at ha
        cases ha
      · rw [hm] at ha
        injection ha with ha1
        injection ha1 with ha2
        subst ha2
        have := hb.symm.trans hm2
        injection this with hb1
        injection hb1 with hb2
        rw [← hb2]
        exact fixEntries_lookup_nonscope path m k hk
  · subst hr
    injection hc with h1 h2
    injection h1 with h1'
    subst h1'
    constructor
    · intro k _
      rfl
    · intro dt hdt m m2 hm hm2 k hk
      rw [hm] at hm2
      injection hm2 with hh
      injection hh with hh'
      rw [← hh']

/-- Witness for C4 at a concrete manifest with a non-internal entry and
an untouched top-level field. -/
theorem claim_C4_witness :
    List.lookup "name" [("name", Json.str "whisper"),
        ("dependencies", Json.obj [("@styx/core", Json.str "workspace:*"),
          ("lodash", Json.str "^4.0.0")])] =
      List.lookup "name" [("name", Json.str "whisper"),
        ("dependencies", Json.obj [("@styx/core", Json.str "^1.0.0"),
          ("lodash", Json.str "^4.0.0")])] ∧
    List.lookup "lodash" [("@styx/core", Json.str "workspace:*"),
        ("lodash", Json.str "^4.0.0")] =
      List.lookup "lodash" [("@styx/core", Json.str "^1.0.0"),
        ("lodash", Json.str "^4.0.0")] := by
  have h := claim_C4 "p"
    [("name", Json.str "whisper"), ("dependencies",
      Json.obj [("@styx/core", Json.str "^1.0.0"), ("lodash", Json.str "^4.0.0")])]
    [("name", Json.str "whisper"), ("dependencies",
      Json.obj [("@styx/core", Json.str "workspace:*"), ("lodash", Json.str "^4.0.0")])]
    "raw"
    (writtenBytes (Json.obj [("name", Json.str "whisper"), ("dependencies",
      Json.obj [("@styx/core", Json.str "workspace:*"), ("lodash", Json.str "^4.0.0")])]))
    ⟨.parsed (Json.obj [("name", Json.str "whisper"), ("dependencies",
        Json.obj [("@styx/core", Json.str "workspace:*"), ("lodash", Json.str "^4.0.0")])])
      (writtenBytes (Json.obj [("name", Json.str "whisper"), ("dependencies",
        Json.obj [("@styx/core", Json.str "workspace:*"), ("lodash", Json.str "^4.0.0")])])),
     true, [LogLine.updating "@styx/core" "p" (Json.str "^1.0.0") "workspace:*"]⟩
    rfl rfl
  exact ⟨h.1 "name" (by decide),
    h.2 "dependencies" (by decide) _ _ rfl rfl "lodash" (by decide)⟩

/-- C5: a manifest is written back exactly when some entry changed,
that is, when some recognized dependency mapping holds an entry whose
name starts with the scope marker with a value different from the
workspace pointer token; with no change the content and its bytes are
untouched and nothing is reported. -/
theorem claim_C5 (path : String) (fields : List (String × Json)) (raw : String) (r : FixResult)
    (h : fix_dependencies path (.parsed (Json.obj fields) raw) = .ok r) :
    (r.wrote = true ↔ ∃ dt ∈ DEP_TYPES, ∃ m, List.lookup dt fields = some (Json.obj m) ∧
      ∃ e ∈ m, pyStartsWith e.1 SCOPE = true ∧ e.2 ≠ Json.str WORKSPACE) ∧
    (r.wrote = false → r.content = .parsed (Json.obj fields) raw ∧ r.logs = []) := by
  obtain ⟨j', ch, lg, hf, hcase⟩ := fix_dependencies_parsed_elim path _ raw r h
  obtain ⟨f2, hj, hother, hdep, hiff, hunch⟩ := fixData_obj_spec path fields j' ch lg hf
  have hiff2 : ch = true ↔ ∃ dt ∈ DEP_TYPES, ∃ m, List.lookup dt fields = some (Json.obj m) ∧
      ∃ e ∈ m, pyStartsWith e.1 SCOPE = true ∧ e.2 ≠ Json.str WORKSPACE := by
    rw [hiff]
    constructor
    · rintro ⟨dt, hdt, m, hm, hch⟩
      exact ⟨dt, hdt, m, hm, (fixEntries_changed_iff path m).1 hch⟩
    · rintro ⟨dt, hdt, m, hm, he⟩
      exact ⟨dt, hdt, m, hm, (fixEntries_changed_iff path m).2 he⟩
  rcases hcase with ⟨hch, hr⟩ | ⟨hch, hr⟩
  · subst hr
    subst hch
    constructor
    · exact ⟨fun _ => hiff2.1 rfl, fun _ => rfl⟩
    · intro hw
      cases hw
  · subst hr
    subst hch
    constructor
    · constructor
      · intro hw
        cases hw
      · intro hex
        cases hiff2.2 hex
    · intro _
      obtain ⟨hjj, hlg⟩ := hunch rfl
      exact ⟨rfl, hlg⟩

/-- Witness for C5 at a concrete manifest whose internal entry needs
rewriting, so a write occurs. -/
theorem claim_C5_witness :
    (⟨.parsed (Json.obj [("dependencies", Json.obj [("@styx/core", Json.str "workspace:*")])])
        (writtenBytes (Json.obj [("dependencies",
          Json.obj [("@styx/core", Json.str "workspace:*")])])),
      true, [LogLine.updating "@styx/core" "p" (Json.str "^1.0.0") "workspace:*"]⟩
      : FixResult).wrote = true := by
  have h := claim_C5 "p" [("dependencies", Json.obj [("@styx/core", Json.str "^1.0.0")])]
    "raw"
    ⟨.parsed (Json.obj [("dependencies", Json.obj [("@styx/core", Json.str "workspace:*")])])
        (writtenBytes (Json.obj [("dependencies",
          Json.obj [("@styx/core", Json.str "workspace:*")])])),
      true, [LogLine.updating "@styx/core" "p" (Json.str "^1.0.0") "workspace:*"]⟩
    rfl
  exact h.1.2 ⟨"dependencies", by decide, [("@styx/core", Json.str "^1.0.0")], rfl,
    ("@styx/core", Json.str "^1.0.0"), List.mem_cons_self _ _, by decide,
    by intro hh; injection hh with hh'; exact absurd hh' (by decide)⟩

/-- C6 counterexample: a directory whose name merely contains the
excluded name as a substring (no path segment equals it) directly
contains package.json, yet the code's discovery skips it, so discovery
differs from the segment-based discovery the claim states. -/
theorem claim_C6_counterexample :
    discover [⟨[".", "xnode_modulesy"], ["package.json"]⟩] ≠
      discoverSegmentSpec [⟨[".", "xnode_modulesy"], ["package.json"]⟩] := by
  decide

/-- C6 amended: discovery records exactly the manifest paths of
directories that directly contain package.json and are not pruned,
where a directory is pruned precisely when the excluded directory name
occurs as a substring of its path string. -/
theorem claim_C6_amended (w : List WalkEntry) (p : String) :
    p ∈ discover w ↔ ∃ e ∈ w, pyIn EXCLUDED (joinSegs e.segs) = false ∧
      e.files.contains "package.json" = true ∧ p = manifestPath e :=
  mem_discover_iff w p

/-- C7: a manifest anywhere inside an excluded-directory subtree (a
directory with a path segment equal to the excluded name) is never
discovered, and a run leaves its store entry untouched, even if it
holds non-normalized internal entries. -/
theorem claim_C7 (w : List WalkEntry) (store : Store) (e : WalkEntry) (he : e ∈ w)
    (hseg : EXCLUDED ∈ e.segs)
    (huniq : ∀ e2 ∈ w, manifestPath e2 = manifestPath e → e2.segs = e.segs) :
    manifestPath e ∉ discover w ∧
    ∀ store1 logs n, runMain w store = .ok (store1, logs, n) →
      List.lookup (manifestPath e) store1 = List.lookup (manifestPath e) store := by
  have hnotin : manifestPath e ∉ discover w := by
    intro hmem
    rw [mem_discover_iff] at hmem
    obtain ⟨e2, he2, hskip, _, hpath⟩ := hmem
    have hsegs := huniq e2 he2 hpath.symm
    rw [hsegs] at hskip
    rw [pyIn_joinSegs_of_mem EXCLUDED e.segs hseg] at hskip
    cases hskip
  refine ⟨hnotin, ?_⟩
  intro store1 logs n h
  exact processFiles_not_mem (discover w) store (manifestPath e) (store1, logs, n) hnotin h

/-- Witness for C7 at a concrete tree with a vendored manifest holding
a non-normalized internal entry next to an app manifest that does get
rewritten. -/
theorem claim_C7_witness :
    manifestPath (⟨[".", "node_modules", "dep"], ["package.json"]⟩ : WalkEntry) ∉
      discover [⟨[".", "node_modules", "dep"], ["package.json"]⟩,
        ⟨[".", "app"], ["package.json"]⟩] ∧
    List.lookup "./node_modules/dep/package.json"
      [("./node_modules/dep/package.json", FileContent.parsed
        (Json.obj [("dependencies", Json.obj [("@styx/pkg", Json.str "1.0")])]) "inner"),
       ("./app/package.json", FileContent.parsed
        (Json.obj [("dependencies", Json.obj [("@styx/app", Json.str "workspace:*")])])
        (writtenBytes (Json.obj [("dependencies",
          Json.obj [("@styx/app", Json.str "workspace:*")])])))] =
    List.lookup "./node_modules/dep/package.json"
      [("./node_modules/dep/package.json", FileContent.parsed
        (Json.obj [("dependencies", Json.obj [("@styx/pkg", Json.str "1.0")])]) "inner"),
       ("./app/package.json", FileContent.parsed
        (Json.obj [("dependencies", Json.obj [("@styx/app", Json.str "2.0")])]) "app")] := by
  have h := claim_C7
    [⟨[".", "node_modules", "dep"], ["package.json"]⟩, ⟨[".", "app"], ["package.json"]⟩]
    [("./node_modules/dep/package.json", FileContent.parsed
      (Json.obj [("dependencies", Json.obj [("@styx/pkg", Json.str "1.0")])]) "inner"),
     ("./app/package.json", FileContent.parsed
      (Json.obj [("dependencies", Json.obj [("@styx/app", Json.str "2.0")])]) "app")]
    ⟨[".", "node_modules", "dep"], ["package.json"]⟩
    (by decide) (by decide) (by decide)
  refine ⟨h.1, ?_⟩
  have h2 := h.2
    [("./node_modules/dep/package.json", FileContent.parsed
      (Json.obj [("dependencies", Json.obj [("@styx/pkg", Json.str "1.0")])]) "inner"),
     ("./app/package.json", FileContent.parsed
      (Json.obj [("dependencies", Json.obj [("@styx/app", Json.str "workspace:*")])])
      (writtenBytes (Json.obj [("dependencies",
        Json.obj [("@styx/app", Json.str "workspace:*")])])))]
    [LogLine.updating "@styx/app" "./app/package.json" (Json.str "2.0") "workspace:*"]
    1 rfl
  exact h2

/-- C8: whenever a manifest is rewritten, the entire resulting object
is serialized by the indent-2 serializer, the written bytes are that
serialization followed by a newline, and the file ends with exactly one
trailing newline. -/
theorem claim_C8 (path : String) (fields : List (String × Json)) (raw : String) (r : FixResult)
    (h : fix_dependencies path (.parsed (Json.obj fields) raw) = .ok r)
    (hw : r.wrote = true) :
    ∃ fields2, r.content = .parsed (Json.obj fields2) (writtenBytes (Json.obj fields2)) ∧
      writtenBytes (Json.obj fields2) = dumpJson 0 (Json.obj fields2) ++ "\n" ∧
      trailingNewlines (writtenBytes (Json.obj fields2)) = 1 := by
  obtain ⟨j', ch, lg, hf, hcase⟩ := fix_dependencies_parsed_elim path _ raw r h
  rcases hcase with ⟨hch, hr⟩ | ⟨hch, hr⟩
  · subst hr
    obtain ⟨f2, hj, _⟩ := fixData_ok_settled path fields j' ch lg hf
    subst hj
    exact ⟨f2, rfl, rfl, trailingNewlines_writtenBytes_obj f2⟩
  · subst hr
    cases hw

/-- Witness for C8 at a concrete rewritten manifest. -/
theorem claim_C8_witness :
    trailingNewlines (writtenBytes (Json.obj [("dependencies",
      Json.obj [("@styx/a", Json.str "workspace:*")])])) = 1 := by
  obtain ⟨f2, hcont, _, htrail⟩ := claim_C8 "p"
    [("dependencies", Json.obj [("@styx/a", Json.str "2")])] "raw"
    ⟨.parsed (Json.obj [("dependencies", Json.obj [("@styx/a", Json.str "workspace:*")])])
        (writtenBytes (Json.obj [("dependencies",
          Json.obj [("@styx/a", Json.str "workspace:*")])])),
      true, [LogLine.updating "@styx/a" "p" (Json.str "2") "workspace:*"]⟩
    rfl rfl
  injection hcont with h1 h2
  injection h1 with h1'
  rw [h1']
  exact htrail

/-- C9: every entry of a recognized dependency mapping whose name
starts with the scope marker and whose value is any JSON value other
than the workspace pointer token string — including non-strings such as
an object — is replaced by the token, with no guard on the value's
type. -/
theorem claim_C9 (path dt k : String) (fields fields2 m : List (String × Json))
    (raw raw2 : String) (r : FixResult) (v : Json)
    (h : fix_dependencies path (.parsed (Json.obj fields) raw) = .ok r)
    (hc : r.content = .parsed (Json.obj fields2) raw2)
    (hdt : dt ∈ DEP_TYPES) (hm : List.lookup dt fields = some (Json.obj m))
    (he : (k, v) ∈ m) (hk : pyStartsWith k SCOPE = true)
    (hv : v ≠ Json.str WORKSPACE) :
    ∃ m2, List.lookup dt fields2 = some (Json.obj m2) ∧ (k, Json.str WORKSPACE) ∈ m2 := by
  obtain ⟨j', ch, lg, hf, hcase⟩ := fix_dependencies_parsed_elim path _ raw r h
  obtain ⟨f2, hj, hother, hdep, hiff, hunch⟩ := fixData_obj_spec path fields j' ch lg hf
  have hchtrue : ch = true :=
    hiff.2 ⟨dt, hdt, m, hm, (fixEntries_changed_iff path m).2 ⟨(k, v), he, hk, hv⟩⟩
  rcases hcase with ⟨_, hr⟩ | ⟨hch, hr⟩
  · subst hr
    injection hc with h1 h2
    rw [h1] at hj
    injection hj with hj'
    subst hj'
    rcases hdep dt hdt with ⟨ha, _⟩ | ⟨mm, ha, hb⟩
    · rw [hm] at ha
      cases ha
    · rw [hm] at ha
      injection ha with ha1
      injection ha1 with ha2
      subst ha2
      exact ⟨(fixEntries path m).1, hb, fixEntries_mem_updated path m k v he hk hv⟩
  · rw [hchtrue] at hch
    cases hch

/-- Witness for C9 at a concrete manifest whose internal entry holds an
object (not a string) as its version value. -/
theorem claim_C9_witness :
    ("@styx/ui", Json.str "workspace:*") ∈
      ([("@styx/ui", Json.str "workspace:*")] : List (String × Json)) := by
  obtain ⟨m2, hl, hmem⟩ := claim_C9 "p" "peerDependencies" "@styx/ui"
    [("peerDependencies", Json.obj [("@styx/ui", Json.obj [])])]
    [("peerDependencies", Json.obj [("@styx/ui", Json.str "workspace:*")])]
    [("@styx/ui", Json.obj [])] "raw"
    (writtenBytes (Json.obj [("peerDependencies",
      Json.obj [("@styx/ui", Json.str "workspace:*")])]))
    ⟨.parsed (Json.obj [("peerDependencies",
        Json.obj [("@styx/ui", Json.str "workspace:*")])])
      (writtenBytes (Json.obj [("peerDependencies",
        Json.obj [("@styx/ui", Json.str "workspace:*")])])),
      true, [LogLine.updating "@styx/ui" "p" (Json.obj []) "workspace:*"]⟩
    (Json.obj [])
    rfl rfl (by decide) rfl (List.mem_cons_self _ _) (by decide)
    (by intro hh; cases hh)
  have hpin : some (Json.obj m2) =
      some (Json.obj [("@styx/ui", Json.str "workspace:*")]) := hl.symm.trans rfl
  injection hpin with hpin1
  injection hpin1 with hpin2
  rw [← hpin2]
  exact hmem

/-- C10: a manifest whose recognized dependency field holds a non-object
value makes normalize-one-manifest raise an uncaught AttributeError
(only the JSON-parse failure is recovered), and an error from one file
aborts the processing of the whole run. -/
theorem claim_C10 :
    (∀ (path : String) (fields : List (String × Json)) (raw dt : String) (v : Json),
      dt ∈ DEP_TYPES → List.lookup dt fields = some v → v.isObj = false →
      fix_dependencies path (.parsed (Json.obj fields) raw) =
        .error PyError.attributeError) ∧
    (∀ (p : String) (rest : List String) (store : Store) (c : FileContent) (e : PyError),
      List.lookup p store = some c → fix_dependencies p c = .error e →
      processFiles (p :: rest) store = .error e) := by
  constructor
  · intro path fields raw dt v hdt hv hobj
    have hfail := fixData_obj_shape_violation path dt fields v hdt hv hobj
    simp [fix_dependencies, hfail]
  · intro p rest store c e h1 h2
    simp [processFiles, h1, h2]

/-- Witness for C10 at a concrete manifest whose dependencies field is
a string. -/
theorem claim_C10_witness :
    fix_dependencies "p"
      (.parsed (Json.obj [("dependencies", Json.str "oops")]) "raw") =
      .error PyError.attributeError ∧
    processFiles ["p"]
      [("p", FileContent.parsed (Json.obj [("dependencies", Json.str "oops")]) "raw")] =
      .error PyError.attributeError := by
  have h1 := claim_C10.1 "p" [("dependencies", Json.str "oops")] "raw" "dependencies"
    (Json.str "oops") (by decide) rfl rfl
  exact ⟨h1, claim_C10.2 "p" []
    [("p", FileContent.parsed (Json.obj [("dependencies", Json.str "oops")]) "raw")]
    (FileContent.parsed (Json.obj [("dependencies", Json.str "oops")]) "raw")
    PyError.attributeError rfl h1⟩

end FixDeps
